import Mathlib

/- Verification of the parameter-set core of the repository:
   model/util/values.py (tolerant value equality and summary statistics) and
   model/util/parameter_set.py (the ParameterSet container).

   Python floats are modelled as exact rationals, pandas DataFrames as
   labelled grids of scalar cells, dicts as association lists in insertion
   order, and raised exceptions as `Except` errors. -/

namespace SolutionsModel

/-! ## Scalar values (model/util/values.py) -/

/-- A scalar value as handled by `value_eq`: a number (Python int/float,
modelled as a rational), the float NaN, Python's `None`, or a string. -/
inductive SVal where
  | num (q : ℚ)
  | nan
  | none
  | str (s : String)
deriving DecidableEq

/-- `pseudo_nan(x)`: true if x is NaN, None or the empty string. -/
def pseudo_nan : SVal → Bool
  | .none => true
  | .nan => true
  | .str s => s == ""
  | .num _ => false

/-- `pseudo_zero(x)`: `x == 0 or pseudo_nan(x)`.  (For strings and None the
Python comparison `x == 0` is False, so only the `pseudo_nan` part applies.) -/
def pseudo_zero : SVal → Bool
  | .num q => q == 0
  | v => pseudo_nan v

/-- `v1 == pytest.approx(v2, abs=thresh, rel=1e-6, nan_ok=True)`.
pytest compares numbers by `|actual - expected| <= max(rel*|expected|, abs)`,
returns True for two NaNs when `nan_ok`, short-circuits on `actual == expected`
(covering the None/None and equal-string cases), and falls back to False when
either side is non-numeric. -/
def approxEq (v1 v2 : SVal) (thresh : ℚ) : Bool :=
  match v1, v2 with
  | .num a, .num b => decide (|a - b| ≤ max thresh (|b| / 1000000))
  | .none, .none => true
  | .str a, .str b => a == b
  | .nan, .nan => true
  | _, _ => false

/-- The scalar part of `value_eq` (everything after the DataFrame dispatch):
two strings compare exactly; under `all_zero` each pseudo-zero operand is
normalized to numeric 0.0 independently; then
`(v1 is None and v2 is None) or v1 == pytest.approx(v2, ...)`. -/
def sval_eq (v1 v2 : SVal) (all_zero : Bool) (thresh : ℚ) : Bool :=
  match v1, v2 with
  | .str a, .str b => a == b
  | _, _ =>
    let w1 := if all_zero && pseudo_zero v1 then .num 0 else v1
    let w2 := if all_zero && pseudo_zero v2 then .num 0 else v2
    (w1 == SVal.none && w2 == SVal.none) || approxEq w1 w2 thresh

/-- A pandas DataFrame as used by the parameter sets: a row index, a column
index, and one list of scalar cells per column (in column order). -/
structure TabV where
  rows : List SVal
  cols : List SVal
  cells : List (List SVal)
deriving DecidableEq

/-- A parameter value: either a scalar or a DataFrame. -/
inductive Value where
  | sv (v : SVal)
  | tab (t : TabV)
deriving DecidableEq

/-- `df_value_eq(v1, v2, all_zero, thresh)`: the indices must be equal, the
column labels must be equal, and every pair of corresponding cells must be
`value_eq` (the cells are scalars, so the scalar branch applies). -/
def df_value_eq (t1 t2 : TabV) (all_zero : Bool) (thresh : ℚ) : Bool :=
  if t1.rows ≠ t2.rows then false
  else if t1.cols ≠ t2.cols then false
  else (t1.cells.zip t2.cells).all fun pc =>
    (pc.1.zip pc.2).all fun px => sval_eq px.1 px.2 all_zero thresh

/-- `value_eq(v1, v2, all_zero=True, thresh=1e-6)`.  A DataFrame is compared
with `df_value_eq` against another DataFrame and is never equal to a
non-DataFrame; scalars use `sval_eq`. -/
def value_eq (v1 v2 : Value) (all_zero : Bool) (thresh : ℚ) : Bool :=
  match v1, v2 with
  | .tab t1, .tab t2 => df_value_eq t1 t2 all_zero thresh
  | .tab _, .sv _ => false
  | .sv _, .tab _ => false
  | .sv a, .sv b => sval_eq a b all_zero thresh

/-- The default arguments of `value_eq`: `all_zero=True, thresh=1e-6`. -/
def value_eq_default (v1 v2 : Value) : Bool :=
  value_eq v1 v2 true (1 / 1000000)

/-! ## Summary statistics (model/util/values.py) -/

/-- Exceptions raised by the statistics helpers: `statistics.StatisticsError`
(empty data for `mean`, fewer than two points for `stdev`, fewer than two for
`quantiles`), and `TypeError` for non-numeric data. -/
inductive StatErr where
  | statisticsError
  | typeError
deriving DecidableEq

/-- `filter_nans(vs)`: drop the pseudo-NaN entries. -/
def filter_nans (vs : List SVal) : List SVal := vs.filter (fun x => !pseudo_nan x)

/-- Read the surviving entries as numbers; a non-numeric survivor raises
`TypeError` in Python's statistics functions. -/
def asNums : List SVal → Except StatErr (List ℚ)
  | [] => .ok []
  | .num q :: rest => (asNums rest).map (q :: ·)
  | _ :: _ => .error .typeError

/-- `statistics.mean`: raises StatisticsError on empty data. -/
def smean_q (l : List ℚ) : Except StatErr ℚ :=
  if l.length = 0 then .error .statisticsError
  else .ok (l.sum / (l.length : ℚ))

/-- The definedness and sample-variance core of `statistics.stdev`: raises
StatisticsError on fewer than two data points.  Python's stdev is the square
root of this payload; the root is irrational in general and no claim settled
here depends on the payload's magnitude, only on whether the call raises. -/
def sstdev_core (l : List ℚ) : Except StatErr ℚ :=
  if l.length < 2 then .error .statisticsError
  else
    let m := l.sum / (l.length : ℚ)
    .ok ((l.map (fun x => (x - m) ^ 2)).sum / ((l.length : ℚ) - 1))

/-- `slow_dev(vs, n=1, minzero=False)`: filter, then
`mean - n*stdev` when any values remain (clamped at 0 when `minzero`),
else NaN. -/
def slow_dev (vs : List SVal) (n : ℚ) (minzero : Bool) : Except StatErr SVal := do
  let fs ← asNums (filter_nans vs)
  if fs.length ≠ 0 then
    let m ← smean_q fs
    let s ← sstdev_core fs
    let r := m - n * s
    pure (.num (if minzero && decide (r < 0) then 0 else r))
  else
    pure .nan

/-- `shi_dev(vs, n=1)`:
`return statistics.mean(vs) + ((n*statistics.stdev(vs)) if len(vs) else math.nan)`.
Python evaluates `statistics.mean(vs)` before the conditional, so an empty
list raises StatisticsError from `mean` and never reaches the NaN branch. -/
def shi_dev (vs : List SVal) (n : ℚ) : Except StatErr SVal := do
  let fs ← asNums (filter_nans vs)
  let m ← smean_q fs
  if fs.length ≠ 0 then
    let s ← sstdev_core fs
    pure (.num (m + n * s))
  else
    pure .nan

/-- Stable ascending placement of one element into a sorted list. -/
def insSorted (x : ℚ) : List ℚ → List ℚ
  | [] => [x]
  | y :: ys => if x ≤ y then x :: y :: ys else y :: insSorted x ys

/-- `sorted(data)` for rationals. -/
def sortQ (l : List ℚ) : List ℚ := l.foldr insSorted []

/-- `statistics.quantiles(data)` with the default `n=4` and the default
exclusive method: sort, and for i in 1..3 take `j = i*(ld+1) // 4` clamped to
[1, ld-1], then `delta = i*(ld+1) - j*4` (computed after clamping, so it can
be negative) and linearly interpolate between `data[j-1]` and `data[j]`.
Raises StatisticsError when fewer than two data points. -/
def quantiles4 (l : List ℚ) : Except StatErr (List ℚ) :=
  let d := sortQ l
  let ld := d.length
  if ld < 2 then .error .statisticsError
  else .ok <| (List.range 3).map fun k =>
    let i := k + 1
    let m := ld + 1
    let j0 := i * m / 4
    let j := if j0 < 1 then 1 else if j0 > ld - 1 then ld - 1 else j0
    let delta : ℤ := (i * m : ℤ) - (j * 4 : ℤ)
    (d.getD (j - 1) 0 * ((4 : ℚ) - (delta : ℚ)) + d.getD j 0 * (delta : ℚ)) / 4

/-- `s25_ile(vs)`: filter, then the first quartile if more than two values
remain, else NaN. -/
def s25_ile (vs : List SVal) : Except StatErr SVal := do
  let fs ← asNums (filter_nans vs)
  if fs.length > 2 then
    let qs ← quantiles4 fs
    pure (.num (qs.getD 0 0))
  else
    pure .nan

/-- `s75_ile(vs)`: filter, then the third quartile if more than two values
remain, else NaN. -/
def s75_ile (vs : List SVal) : Except StatErr SVal := do
  let fs ← asNums (filter_nans vs)
  if fs.length > 2 then
    let qs ← quantiles4 fs
    pure (.num (qs.getD 2 0))
  else
    pure .nan

-- Checks that the embedding reproduces the behaviours pinned down by the
-- repository's own test_values.py.
example : value_eq (.sv .none) (.sv (.str "")) true (1/1000000) = true := by
  simp [value_eq, sval_eq, pseudo_zero, pseudo_nan, approxEq]
example : value_eq (.sv (.str "")) (.sv (.str " ")) true (1/1000000) = false := by
  simp [value_eq, sval_eq]
example : value_eq (.sv (.num 1)) (.sv (.num 1)) true (1/1000000) = true := by
  simp [value_eq, sval_eq, pseudo_zero, pseudo_nan, approxEq]
example : value_eq (.sv (.num 1)) (.sv (.num 0)) true (1/1000000) = false := by
  simp [value_eq, sval_eq, pseudo_zero, pseudo_nan, approxEq]
  norm_num
example : value_eq (.sv (.num 0)) (.sv .nan) true (1/1000000) = true := by
  simp [value_eq, sval_eq, pseudo_zero, pseudo_nan, approxEq]
example : value_eq (.sv (.num (2 + 1/1000000))) (.sv (.num 2)) true (1/1000000) = true := by
  simp [value_eq, sval_eq, pseudo_zero, pseudo_nan, approxEq]
  norm_num [abs_of_nonneg, abs_of_pos]
example : value_eq (.sv .none) (.sv .none) false (1/1000000) = true := by
  simp [value_eq, sval_eq, pseudo_zero, pseudo_nan, approxEq]
example : value_eq (.sv .nan) (.sv .nan) false (1/1000000) = true := by
  simp [value_eq, sval_eq, pseudo_zero, pseudo_nan, approxEq]
example : value_eq (.sv .none) (.sv (.num 0)) false (1/1000000) = false := by
  simp [value_eq, sval_eq, pseudo_zero, pseudo_nan, approxEq]
example : value_eq (.sv .none) (.sv .nan) false (1/1000000) = false := by
  simp [value_eq, sval_eq, pseudo_zero, pseudo_nan, approxEq]
example : quantiles4 [20, 30, 40] = .ok [20, 30, 40] := by
  norm_num [quantiles4, sortQ, insSorted, List.range_succ]
example : s75_ile [.num 20, .num 30, .num 40] = .ok (.num 40) := by
  have hq : quantiles4 [20, 30, 40] = .ok [20, 30, 40] := by
    norm_num [quantiles4, sortQ, insSorted, List.range_succ]
  simp [s75_ile, asNums, filter_nans, pseudo_nan, Except.map, Bind.bind, Except.bind, hq]
  rfl
example : s25_ile [.num 0, .str "", .none] = .ok .nan := by
  simp [s25_ile, asNums, filter_nans, pseudo_nan, Except.map, Bind.bind, Except.bind, pure,
        Except.pure]

/-! ## Claims about the value module -/

/-- Well-shapedness of a DataFrame as pandas maintains it: one cell list per
column, each of the index's length. -/
def TabV.Wf (t : TabV) : Prop :=
  t.cells.length = t.cols.length ∧ ∀ c ∈ t.cells, c.length = t.rows.length

instance (t : TabV) : Decidable t.Wf := by unfold TabV.Wf; infer_instance

/-- The cell of column i, row j. -/
def cellAt (t : TabV) (i j : ℕ) : SVal := (t.cells.getD i []).getD j (.num 0)

/-- Helper: an `all` over a zip of equal-length lists is a bounded universal. -/
theorem zip_all_iff {α : Type} (f : α × α → Bool) (d : α) :
    ∀ (l1 l2 : List α), l1.length = l2.length →
      (((l1.zip l2).all f = true) ↔
        ∀ i, i < l1.length → f (l1.getD i d, l2.getD i d) = true) := by
  intro l1
  induction l1 with
  | nil => intro l2 h; simp
  | cons a l1 ih =>
    intro l2 h
    cases l2 with
    | nil => simp at h
    | cons b l2 =>
      simp only [List.zip_cons_cons, List.all_cons, Bool.and_eq_true, List.length_cons]
      rw [ih l2 (by simpa using h)]
      constructor
      · rintro ⟨hab, hrest⟩ i hi
        cases i with
        | zero => simpa using hab
        | succ n => simpa using hrest n (by omega)
      · intro hall
        exact ⟨by simpa using hall 0 (by omega),
               fun i hi => by simpa using hall (i + 1) (by omega)⟩

/-- C6: two DataFrames are `value_eq` iff their row-key sequences are
identical, their column-label sequences are identical, and every
corresponding cell pair is `value_eq` under the same parameters; and a
DataFrame is never `value_eq` to a non-DataFrame (in either argument order). -/
theorem tabular_value_eq_iff (t1 t2 : TabV) (az : Bool) (th : ℚ)
    (h1 : t1.Wf) (h2 : t2.Wf) :
    (value_eq (.tab t1) (.tab t2) az th = true ↔
      (t1.rows = t2.rows ∧ t1.cols = t2.cols ∧
        ∀ i j, i < t1.cols.length → j < t1.rows.length →
          value_eq (.sv (cellAt t1 i j)) (.sv (cellAt t2 i j)) az th = true)) ∧
    (∀ s : SVal, value_eq (.tab t1) (.sv s) az th = false ∧
                 value_eq (.sv s) (.tab t1) az th = false) := by
  refine ⟨?_, fun s => ⟨rfl, rfl⟩⟩
  show df_value_eq t1 t2 az th = true ↔ _
  unfold df_value_eq
  by_cases hr : t1.rows = t2.rows
  · by_cases hc : t1.cols = t2.cols
    · rw [if_neg (by simpa using hr), if_neg (by simpa using hc)]
      have hlen : t1.cells.length = t2.cells.length := by
        rw [h1.1, h2.1, hc]
      rw [zip_all_iff _ ([] : List SVal) _ _ hlen]
      constructor
      · intro hall
        refine ⟨hr, hc, fun i j hi hj => ?_⟩
        have hi1 : i < t1.cells.length := by rw [h1.1]; exact hi
        have hcol := hall i hi1
        have m1 : t1.cells.getD i [] ∈ t1.cells := by
          rw [List.getD_eq_getElem _ _ hi1]; exact List.getElem_mem _
        have m2 : t2.cells.getD i [] ∈ t2.cells := by
          rw [List.getD_eq_getElem _ _ (hlen ▸ hi1)]; exact List.getElem_mem _
        have hclen : (t1.cells.getD i []).length = (t2.cells.getD i []).length := by
          rw [h1.2 _ m1, h2.2 _ m2, hr]
        rw [zip_all_iff _ (SVal.num 0) _ _ hclen] at hcol
        have hj1 : j < (t1.cells.getD i []).length := by
          rw [h1.2 _ m1]; exact hj
        exact hcol j hj1
      · rintro ⟨-, -, hcells⟩ i hi1
        have hi : i < t1.cols.length := by rw [← h1.1]; exact hi1
        have m1 : t1.cells.getD i [] ∈ t1.cells := by
          rw [List.getD_eq_getElem _ _ hi1]; exact List.getElem_mem _
        have m2 : t2.cells.getD i [] ∈ t2.cells := by
          rw [List.getD_eq_getElem _ _ (hlen ▸ hi1)]; exact List.getElem_mem _
        have hclen : (t1.cells.getD i []).length = (t2.cells.getD i []).length := by
          rw [h1.2 _ m1, h2.2 _ m2, hr]
        rw [zip_all_iff _ (SVal.num 0) _ _ hclen]
        intro j hj1
        have hj : j < t1.rows.length := by rw [← h1.2 _ m1]; exact hj1
        exact hcells i j hi hj
    · rw [if_neg (by simpa using hr), if_pos (by simpa using hc)]
      refine iff_of_false (by simp) ?_
      rintro ⟨-, hc', -⟩; exact hc hc'
  · rw [if_pos (by simpa using hr)]
    refine iff_of_false (by simp) ?_
    rintro ⟨hr', -, -⟩; exact hr hr'

/-- A concrete well-shaped table used by witnesses. -/
def tabSample : TabV :=
  ⟨[.num 1990, .num 1991], [.str "World", .str "EU"],
   [[.num 2, .num 3], [.num 1, .num 1]]⟩

/-- Witness for C6 at a concrete table: discharges the well-shapedness
hypotheses and reads off the DataFrame/non-DataFrame clause. -/
theorem tabular_value_eq_iff_witness :
    value_eq (.tab tabSample) (.sv (.num 2)) true (1 / 1000000) = false ∧
    value_eq (.sv (.num 2)) (.tab tabSample) true (1 / 1000000) = false :=
  (tabular_value_eq_iff tabSample tabSample true (1 / 1000000)
    (by decide) (by decide)).2 (.num 2)

/-- C7: under the default `all_zero=True`, the pseudo-zero values 0, None,
"" and NaN are all mutually `value_eq`; and two text values are `value_eq`
iff they are exactly equal strings. -/
theorem all_zero_pseudo_zero_eq :
    (∀ v1 ∈ [SVal.num 0, SVal.none, SVal.str "", SVal.nan],
     ∀ v2 ∈ [SVal.num 0, SVal.none, SVal.str "", SVal.nan],
        value_eq (.sv v1) (.sv v2) true (1 / 1000000) = true) ∧
    (∀ s1 s2 : String,
        (value_eq (.sv (.str s1)) (.sv (.str s2)) true (1 / 1000000) = true ↔
          s1 = s2)) := by
  constructor
  · intro v1 h1 v2 h2
    fin_cases h1 <;> fin_cases h2 <;>
      simp [value_eq, sval_eq, pseudo_zero, pseudo_nan, approxEq]
  · intro s1 s2
    show (s1 == s2) = true ↔ s1 = s2
    exact beq_iff_eq

/-- Witness for C7: a concrete pseudo-zero pair and a concrete string pair. -/
theorem all_zero_pseudo_zero_eq_witness :
    value_eq (.sv (.num 0)) (.sv .nan) true (1 / 1000000) = true ∧
    (value_eq (.sv (.str "x")) (.sv (.str "x")) true (1 / 1000000) = true ↔
      ("x" : String) = "x") :=
  ⟨all_zero_pseudo_zero_eq.1 _ (by decide) _ (by decide),
   all_zero_pseudo_zero_eq.2 "x" "x"⟩

/-- C8: the percentile functions do return NaN when too few samples remain
after discarding the pseudo-NaN entries, but the deviation-band functions do
not: `slow_dev` raises StatisticsError (from `statistics.stdev`) when exactly
one sample remains, and `shi_dev` raises StatisticsError (from
`statistics.mean` or `statistics.stdev`) when zero or one samples remain,
contradicting the module's stated contract that all return NaN. -/
theorem dev_band_too_few_samples_raises :
    slow_dev [SVal.num 5, SVal.none, SVal.str "", SVal.nan] 1 false
      = .error .statisticsError ∧
    shi_dev ([] : List SVal) 1 = .error .statisticsError ∧
    shi_dev [SVal.num 5] 1 = .error .statisticsError ∧
    slow_dev ([] : List SVal) 1 false = .ok SVal.nan ∧
    s25_ile [SVal.num 1, SVal.num 2, SVal.none] = .ok SVal.nan ∧
    s75_ile [SVal.num 1] = .ok SVal.nan := by
  refine ⟨rfl, rfl, rfl, rfl, rfl, rfl⟩

/-! ## ParameterSet (model/util/parameter_set.py)

A concrete ParameterSet class is a dataclass: an ordered list of fields, each
with a name and a class-level default value.  An instance holds the
explicitly-stored values (the instance `__dict__`), the `_set` set of
explicitly set parameter names, the `_meta` dict (whose entries can be an
explicit None), and the `_locked` flag.  Python dicts are modelled as
association lists in insertion order, Python sets by their membership, and a
raised exception as an `Except.error`. -/

/-- A parameter name. -/
abbrev PName := String

/-- One dataclass field: its name and its class-level default value. -/
structure PField where
  name : PName
  default : Value
deriving DecidableEq

/-- The ordered field list of a concrete ParameterSet class
(`dataclasses.fields`). -/
abbrev Schema := List PField

/-- `parameter_names()`: the field names in declaration order. -/
def Schema.names (s : Schema) : List PName := s.map (·.name)

/-- The class-level default of a field (getattr on the class). -/
def Schema.defaultOf (s : Schema) (n : PName) : Option Value :=
  (s.find? (·.name = n)).map (·.default)

/-- The default as a total function (only meaningful for schema fields). -/
def defaultValue (s : Schema) (n : PName) : Value :=
  (s.defaultOf n).getD (.sv .none)

/-- One top-level entry of parsed yaml data: a plain value, or a nested dict
with both a 'value' and a 'meta' key. -/
inductive RawEntry where
  | plain (v : Value)
  | withMeta (v : Value) (m : Option String)
deriving DecidableEq

/-- The value carried by a raw entry. -/
def RawEntry.val : RawEntry → Value
  | .plain v => v
  | .withMeta v _ => v

/-- Parsed yaml data: a dict from parameter name to raw entry. -/
abbrev RawData := List (PName × RawEntry)

/-- Python dict lookup (`d.get(k)`). -/
def dictGet {α : Type} : List (PName × α) → PName → Option α
  | [], _ => Option.none
  | (k', v') :: rest, k => if k' = k then some v' else dictGet rest k

/-- Python dict assignment (`d[k] = v`): replace in place, else append. -/
def dictSet {α : Type} : List (PName × α) → PName → α → List (PName × α)
  | [], k, v => [(k, v)]
  | (k', v') :: rest, k, v =>
      if k' = k then (k, v) :: rest else (k', v') :: dictSet rest k v

/-- Python set `add`. -/
def setInsert (s : List PName) (x : PName) : List PName :=
  if x ∈ s then s else x :: s

/-- Python set `discard`. -/
def setDiscard (s : List PName) (x : PName) : List PName :=
  s.filter (fun y => y ≠ x)

/-- The state of a ParameterSet instance. -/
structure ParameterSet where
  schema : Schema
  /-- the parameter entries of the instance `__dict__`; a parameter absent
  here reports the class default via ordinary attribute lookup -/
  vals : List (PName × Value)
  /-- `_set`: the names that were explicitly set -/
  pset : List PName
  /-- `_meta`: metadata; an entry can be an explicit None -/
  pmeta : List (PName × Option String)
  /-- `_locked` -/
  locked : Bool
deriving DecidableEq

/-- Exceptions raised by ParameterSet operations.  All are AttributeError in
Python; the spec distinguishes them by message: "Cannot set/alter ... locked"
(LockedError), "No such parameter" (UnknownParameterError), and an ordinary
missing-attribute AttributeError from `getattr`. -/
inductive PSErr where
  | lockedError
  | unknownParameter (n : PName)
  | noAttribute (n : PName)
deriving DecidableEq

namespace ParameterSet

/-- `islocked()`. -/
def islocked (ps : ParameterSet) : Bool := ps.locked

/-- The visible value of parameter `n`: the instance `__dict__` entry if
present, else the class default. -/
def psValue (ps : ParameterSet) (n : PName) : Value :=
  (dictGet ps.vals n).getD (defaultValue ps.schema n)

/-- `meta(parameter_name)` as a total lookup: `self._meta.get(p)` (None both
when absent and when stored as an explicit None). -/
def metaOf (ps : ParameterSet) (n : PName) : Option String :=
  (dictGet ps.pmeta n).getD Option.none

/-- `__setattr__(name, value)`: refuse when locked; otherwise store the
attribute and, when the name is an actual parameter, add it to `_set`. -/
def setAttr (ps : ParameterSet) (name : PName) (v : Value) :
    Except PSErr ParameterSet :=
  if ps.islocked then .error .lockedError
  else
    let ps1 := { ps with vals := dictSet ps.vals name v }
    if name ∈ ps.schema.names then .ok { ps1 with pset := setInsert ps1.pset name }
    else .ok ps1

/-- `getattr(self, name)`: the instance `__dict__` entry, else the class
attribute (for a parameter, its default), else AttributeError. -/
def attrGet (ps : ParameterSet) (name : PName) : Except PSErr Value :=
  match dictGet ps.vals name with
  | some v => .ok v
  | Option.none =>
    match ps.schema.defaultOf name with
    | some d => .ok d
    | Option.none => .error (.noAttribute name)

/-- `__getitem__(key)`: unknown-parameter check, then `getattr`. -/
def getItem (ps : ParameterSet) (key : PName) : Except PSErr Value :=
  if key ∉ ps.schema.names then .error (.unknownParameter key)
  else ps.attrGet key

/-- `__setitem__(key, value)`: unknown-parameter check, then `__setattr__`. -/
def setItem (ps : ParameterSet) (key : PName) (v : Value) :
    Except PSErr ParameterSet :=
  if key ∉ ps.schema.names then .error (.unknownParameter key)
  else ps.setAttr key v

/-- `meta(parameter_name)`: unknown-parameter check, then `_meta.get`. -/
def meta (ps : ParameterSet) (n : PName) : Except PSErr (Option String) :=
  if n ∉ ps.schema.names then .error (.unknownParameter n)
  else .ok (ps.metaOf n)

/-- `set_meta(parameter_name, newvalue)`: locked check first, then
unknown-parameter check, then store (an explicit None is stored as an entry)
and add the name to `_set`. -/
def set_meta (ps : ParameterSet) (n : PName) (m : Option String) :
    Except PSErr ParameterSet :=
  if ps.islocked then .error .lockedError
  else if n ∉ ps.schema.names then .error (.unknownParameter n)
  else .ok { ps with pmeta := dictSet ps.pmeta n m, pset := setInsert ps.pset n }

/-- `lock()`: `setattr(self, '_locked', True)`, which goes through the
guarded `__setattr__` ('_locked' is not a parameter name, so `_set` is not
touched). -/
def lock (ps : ParameterSet) : Except PSErr ParameterSet :=
  if ps.islocked then .error .lockedError
  else .ok { ps with locked := true }

/-- One step of the `__init__` loop: unknown names are warned about and
dropped; a recognized entry first records metadata when the nested
value/meta form is present, then stores the value via `self[k] = v` (which
adds `k` to `_set`; the construction state is never locked).
`_initialize_value` only reconstitutes a DataFrame from its serialized dict,
which this model treats as the identity. -/
def initStep (S : Schema) (ps : ParameterSet) (k : PName) (e : RawEntry) :
    ParameterSet :=
  if k ∈ S.names then
    let ps1 := match e with
      | .withMeta _ m => { ps with pmeta := dictSet ps.pmeta k m }
      | .plain _ => ps
    { ps1 with vals := dictSet ps1.vals k e.val, pset := setInsert ps1.pset k }
  else ps

/-- The `__init__` loop over the parsed data, in dict order. -/
def initLoop (S : Schema) : ParameterSet → RawData → ParameterSet
  | ps, [] => ps
  | ps, (k, e) :: rest => initLoop S (initStep S ps k e) rest

/-- `ParameterSet(param_data)` for a concrete class with field list `S`. -/
def init (S : Schema) (rd : RawData) : ParameterSet :=
  initLoop S ⟨S, [], [], [], false⟩ rd

/-- The serialized entry of one parameter: its visible value (a DataFrame
becomes its dict form, the identity here), wrapped with the metadata when
metadata is present. -/
def yamlEntry (ps : ParameterSet) (p : PName) : RawEntry :=
  match ps.metaOf p with
  | some m => .withMeta (ps.psValue p) (some m)
  | Option.none => .plain (ps.psValue p)

/-- `_to_yaml_form(compact)`: iterate the parameter names in order, skip
non-`_set` fields when compact, and emit each kept field's entry. -/
def toYamlForm (ps : ParameterSet) (compact : Bool) : RawData :=
  ps.schema.names.filterMap fun p =>
    if compact ∧ p ∉ ps.pset then Option.none
    else some (p, ps.yamlEntry p)

/-- `copy()`: a new instance of the same class built from
`self._to_yaml_form()` — note the compact default. -/
def copy (ps : ParameterSet) : ParameterSet :=
  init ps.schema (ps.toYamlForm true)

/-- The loop of `merged_with`: for each name in `other._set` that is an
actual parameter of `other`, copy value and metadata (possibly an explicit
None) onto the new instance.  A raised exception propagates out of the
loop. -/
def mergeLoop (other : ParameterSet) :
    ParameterSet → List PName → Except PSErr ParameterSet
  | nps, [] => .ok nps
  | nps, op :: rest =>
    if op ∈ other.schema.names then
      match other.getItem op with
      | .error err => .error err
      | .ok v =>
        match nps.setItem op v with
        | .error err => .error err
        | .ok nps1 =>
          match other.meta op with
          | .error err => .error err
          | .ok m =>
            match nps1.set_meta op m with
            | .error err => .error err
            | .ok nps2 => mergeLoop other nps2 rest
    else mergeLoop other nps rest

/-- `self.merged_with(other_ps)`: build `other`'s class from
`self._to_yaml_form()` (compact), then overlay `other`'s explicitly set
values and their metadata. -/
def merged_with (base other : ParameterSet) : Except PSErr ParameterSet :=
  mergeLoop other (init other.schema (base.toYamlForm true)) other.pset

/-- One comparison step of `delta_from` at parameter `p` (with the base and
new values already read back): don't 'set' the new value when it equals the
base value, do 'set' it when it is the default (and the base value is not),
otherwise leave the 'set' state alone. -/
def deltaStep (S : Schema) (base nps : ParameterSet) (p : PName) : ParameterSet :=
  if value_eq (base.psValue p) (nps.psValue p) true (1 / 1000000) then
    { nps with pset := setDiscard nps.pset p }
  else if value_eq (nps.psValue p) (defaultValue S p) true (1 / 1000000) then
    { nps with pset := setInsert nps.pset p }
  else nps

/-- The loop of `delta_from` over `self.parameter_names()`: read
`base_ps[p]` and `newps[p]` (a raised exception propagates), compare with
default `value_eq` arguments and adjust `_set` membership directly. -/
def deltaLoop (S : Schema) (base : ParameterSet) :
    ParameterSet → List PName → Except PSErr ParameterSet
  | nps, [] => .ok nps
  | nps, p :: rest =>
    match base.getItem p with
    | .error err => .error err
    | .ok bv =>
      match nps.getItem p with
      | .error err => .error err
      | .ok nv =>
        deltaLoop S base
          (if value_eq bv nv true (1 / 1000000) then
            { nps with pset := setDiscard nps.pset p }
          else if value_eq nv (defaultValue S p) true (1 / 1000000) then
            { nps with pset := setInsert nps.pset p }
          else nps) rest

/-- `self.delta_from(base_ps)`: start from `self.copy()` and walk the
schema; `base_ps[p]` raises when `p` is not a parameter of `base_ps`. -/
def delta_from (selfps base : ParameterSet) : Except PSErr ParameterSet :=
  deltaLoop selfps.schema base selfps.copy selfps.schema.names

end ParameterSet

deriving instance DecidableEq for Except

namespace ParameterSet

/-- `initStep` never changes the schema. -/
theorem initStep_schema (S : Schema) (ps : ParameterSet) (k : PName) (e : RawEntry) :
    (initStep S ps k e).schema = ps.schema := by
  unfold initStep
  split
  · cases e <;> rfl
  · rfl

/-- `initStep` never changes the locked flag. -/
theorem initStep_locked (S : Schema) (ps : ParameterSet) (k : PName) (e : RawEntry) :
    (initStep S ps k e).locked = ps.locked := by
  unfold initStep
  split
  · cases e <;> rfl
  · rfl

/-- The construction loop never changes the schema. -/
theorem initLoop_schema (S : Schema) (rd : RawData) :
    ∀ ps : ParameterSet, (initLoop S ps rd).schema = ps.schema := by
  induction rd with
  | nil => intro ps; rfl
  | cons kv rest ih =>
    intro ps
    cases kv with
    | mk k e => rw [initLoop, ih, initStep_schema]

/-- The construction loop never changes the locked flag. -/
theorem initLoop_locked (S : Schema) (rd : RawData) :
    ∀ ps : ParameterSet, (initLoop S ps rd).locked = ps.locked := by
  induction rd with
  | nil => intro ps; rfl
  | cons kv rest ih =>
    intro ps
    cases kv with
    | mk k e => rw [initLoop, ih, initStep_locked]

/-- A freshly constructed instance has the class's field list. -/
theorem init_schema (S : Schema) (rd : RawData) : (init S rd).schema = S := by
  unfold init; rw [initLoop_schema]

/-- A freshly constructed instance is unlocked. -/
theorem init_locked (S : Schema) (rd : RawData) : (init S rd).locked = false := by
  unfold init; rw [initLoop_locked]

/-- `copy()` keeps the schema. -/
theorem copy_schema (ps : ParameterSet) : ps.copy.schema = ps.schema := by
  unfold copy; rw [init_schema]

/-- `copy()` returns an unlocked instance. -/
theorem copy_locked (ps : ParameterSet) : ps.copy.locked = false := by
  unfold copy; rw [init_locked]

/-- `__setattr__` on an unlocked instance, for a parameter name. -/
theorem setAttr_ok (ps : ParameterSet) (f : PName) (v : Value)
    (hl : ps.locked = false) (hf : f ∈ ps.schema.names) :
    ps.setAttr f v
      = .ok { ps with vals := dictSet ps.vals f v, pset := setInsert ps.pset f } := by
  unfold setAttr islocked
  rw [hl]
  simp only [Bool.false_eq_true, if_false]
  rw [if_pos hf]

/-- `__setitem__` on an unlocked instance, for a parameter name. -/
theorem setItem_ok (ps : ParameterSet) (f : PName) (v : Value)
    (hl : ps.locked = false) (hf : f ∈ ps.schema.names) :
    ps.setItem f v
      = .ok { ps with vals := dictSet ps.vals f v, pset := setInsert ps.pset f } := by
  unfold setItem
  rw [if_neg (not_not_intro hf)]
  exact setAttr_ok ps f v hl hf

/-- `set_meta` on an unlocked instance, for a parameter name. -/
theorem set_meta_ok (ps : ParameterSet) (f : PName) (m : Option String)
    (hl : ps.locked = false) (hf : f ∈ ps.schema.names) :
    ps.set_meta f m
      = .ok { ps with pmeta := dictSet ps.pmeta f m, pset := setInsert ps.pset f } := by
  unfold set_meta islocked
  rw [hl]
  simp only [Bool.false_eq_true, if_false]
  rw [if_neg (not_not_intro hf)]

/-- `__getitem__` for a parameter name returns the visible value. -/
theorem getItem_ok (ps : ParameterSet) (f : PName) (hf : f ∈ ps.schema.names) :
    ps.getItem f = .ok (ps.psValue f) := by
  unfold getItem
  rw [if_neg (not_not_intro hf)]
  rcases List.mem_map.mp hf with ⟨fd, hfd, hname⟩
  have h1 : (ps.schema.find? (fun x => x.name = f)).isSome :=
    List.find?_isSome.mpr ⟨fd, hfd, by simp only [decide_eq_true_eq]; exact hname⟩
  rcases Option.isSome_iff_exists.mp h1 with ⟨fd', hfd'⟩
  unfold attrGet psValue defaultValue Schema.defaultOf
  rw [hfd']
  cases h : dictGet ps.vals f <;> simp

/-- `meta` for a parameter name returns the stored metadata. -/
theorem meta_ok (ps : ParameterSet) (f : PName) (hf : f ∈ ps.schema.names) :
    ps.meta f = .ok (ps.metaOf f) := by
  unfold meta
  rw [if_neg (not_not_intro hf)]

end ParameterSet

/-- A two-field sample class in the shape of the repository's SamplePS. -/
def sampleSchema : Schema :=
  [⟨"paramA", .sv .none⟩, ⟨"paramC", .sv (.num 3)⟩]

/-- The state of `SamplePS("")` after `lock()`. -/
def psLockedSample : ParameterSet := ⟨sampleSchema, [], [], [], true⟩

/-! ### C4: attribute-style versus bracket-style access -/

/-- C4 (amended): on schema field names, attribute-style and bracket-style
access are equivalent — reading `ps.f` returns exactly what `ps[f]` returns,
and `ps.f = v` has exactly the same result (new state or error) as
`ps[f] = v`.  (For names that are not schema fields the two differ: see the
counterexample.) -/
theorem attr_bracket_equiv (ps : ParameterSet) (f : PName)
    (hf : f ∈ ps.schema.names) :
    ps.attrGet f = ps.getItem f ∧
    ∀ v : Value, ps.setAttr f v = ps.setItem f v := by
  constructor
  · unfold ParameterSet.getItem
    rw [if_neg (not_not_intro hf)]
  · intro v
    unfold ParameterSet.setItem
    rw [if_neg (not_not_intro hf)]

/-- Witness for C4 on a concrete field of the sample class. -/
theorem attr_bracket_equiv_witness :
    (ParameterSet.init sampleSchema []).attrGet "paramA"
      = (ParameterSet.init sampleSchema []).getItem "paramA" ∧
    ∀ v : Value,
      (ParameterSet.init sampleSchema []).setAttr "paramA" v
        = (ParameterSet.init sampleSchema []).setItem "paramA" v :=
  attr_bracket_equiv (ParameterSet.init sampleSchema []) "paramA" (by decide)

/-- C4 counterexample: for a name that is not a schema field the two access
styles are not equivalent.  On an unlocked instance, attribute-style
assignment succeeds and stores an auxiliary attribute, while bracket-style
assignment raises UnknownParameterError (`No such parameter`). -/
theorem attr_bracket_not_equiv_nonfield :
    (ParameterSet.init sampleSchema []).setAttr "aux" (.sv (.str "v"))
      = .ok ⟨sampleSchema, [("aux", .sv (.str "v"))], [], [], false⟩ ∧
    (ParameterSet.init sampleSchema []).setItem "aux" (.sv (.str "v"))
      = .error (.unknownParameter "aux") ∧
    (ParameterSet.init sampleSchema []).setAttr "aux" (.sv (.str "v"))
      ≠ (ParameterSet.init sampleSchema []).setItem "aux" (.sv (.str "v")) := by
  refine ⟨rfl, rfl, ?_⟩; decide

/-! ### C5: lock finality -/

/-- C5: once locked, both set paths and `set_meta` fail with LockedError (the
returned error carries no new state, so values and metadata are unchanged),
while `copy()` of the locked instance is unlocked and accepts both `set` and
`set_meta`. -/
theorem lock_finality (ps : ParameterSet) (f : PName) (v : Value)
    (m : Option String) (hl : ps.locked = true) (hf : f ∈ ps.schema.names) :
    ps.setItem f v = .error .lockedError ∧
    ps.setAttr f v = .error .lockedError ∧
    ps.set_meta f m = .error .lockedError ∧
    ps.copy.locked = false ∧
    (∃ ps1, ps.copy.setItem f v = .ok ps1) ∧
    (∃ ps2, ps.copy.set_meta f m = .ok ps2) := by
  have hcs : ps.copy.schema = ps.schema := ParameterSet.copy_schema ps
  have hcl : ps.copy.locked = false := ParameterSet.copy_locked ps
  refine ⟨?_, ?_, ?_, hcl, ?_, ?_⟩
  · unfold ParameterSet.setItem
    rw [if_neg (not_not_intro hf)]
    unfold ParameterSet.setAttr ParameterSet.islocked
    rw [hl]
    rfl
  · unfold ParameterSet.setAttr ParameterSet.islocked
    rw [hl]
    rfl
  · unfold ParameterSet.set_meta ParameterSet.islocked
    rw [hl]
    rfl
  · exact ⟨_, ParameterSet.setItem_ok ps.copy f v hcl (hcs ▸ hf)⟩
  · exact ⟨_, ParameterSet.set_meta_ok ps.copy f m hcl (hcs ▸ hf)⟩

/-- Witness for C5 at the locked sample instance (`psLockedSample` is
exactly the state `lock()` returns on `SamplePS("")`, as the first conjunct
shows). -/
theorem lock_finality_witness :
    (ParameterSet.init sampleSchema []).lock = .ok psLockedSample ∧
    (psLockedSample.setItem "paramA" (.sv (.num 1)) = .error .lockedError ∧
     psLockedSample.setAttr "paramA" (.sv (.num 1)) = .error .lockedError ∧
     psLockedSample.set_meta "paramA" (some "m") = .error .lockedError ∧
     psLockedSample.copy.locked = false ∧
     (∃ ps1, psLockedSample.copy.setItem "paramA" (.sv (.num 1)) = .ok ps1) ∧
     (∃ ps2, psLockedSample.copy.set_meta "paramA" (some "m") = .ok ps2)) :=
  ⟨rfl, lock_finality psLockedSample "paramA" (.sv (.num 1)) (some "m") rfl
    (by decide)⟩

/-! ### C9: unknown parameter names -/

/-- C9 (amended): for a name that is not a schema field, bracket-style get
and set and `meta` always raise UnknownParameterError, and nothing is stored;
`set_meta` raises UnknownParameterError on an unlocked instance but checks
the lock first, so on a locked instance it raises LockedError instead. -/
theorem unknown_parameter_errors (ps : ParameterSet) (n : PName) (v : Value)
    (m : Option String) (hn : n ∉ ps.schema.names) :
    ps.getItem n = .error (.unknownParameter n) ∧
    ps.setItem n v = .error (.unknownParameter n) ∧
    ps.meta n = .error (.unknownParameter n) ∧
    (ps.locked = false → ps.set_meta n m = .error (.unknownParameter n)) ∧
    (ps.locked = true → ps.set_meta n m = .error .lockedError) := by
  refine ⟨?_, ?_, ?_, ?_, ?_⟩
  · unfold ParameterSet.getItem; rw [if_pos hn]
  · unfold ParameterSet.setItem; rw [if_pos hn]
  · unfold ParameterSet.meta; rw [if_pos hn]
  · intro h
    unfold ParameterSet.set_meta ParameterSet.islocked
    rw [h]
    simp only [Bool.false_eq_true, if_false]
    rw [if_pos hn]
  · intro h
    unfold ParameterSet.set_meta ParameterSet.islocked
    rw [h]
    rfl

/-- Witness for C9 at a concrete unknown name. -/
theorem unknown_parameter_errors_witness :
    (ParameterSet.init sampleSchema []).getItem "nope"
        = .error (.unknownParameter "nope") ∧
    (ParameterSet.init sampleSchema []).setItem "nope" (.sv (.num 1))
        = .error (.unknownParameter "nope") ∧
    (ParameterSet.init sampleSchema []).meta "nope"
        = .error (.unknownParameter "nope") ∧
    ((ParameterSet.init sampleSchema []).locked = false →
      (ParameterSet.init sampleSchema []).set_meta "nope" Option.none
        = .error (.unknownParameter "nope")) ∧
    ((ParameterSet.init sampleSchema []).locked = true →
      (ParameterSet.init sampleSchema []).set_meta "nope" Option.none
        = .error .lockedError) :=
  unknown_parameter_errors (ParameterSet.init sampleSchema []) "nope"
    (.sv (.num 1)) Option.none (by decide)

/-- C9 counterexample: on a locked instance (`psLockedSample` is exactly what
`lock()` returns on `SamplePS("")`), `set_meta` of an unknown name raises
LockedError, not UnknownParameterError as the claim states for every
ParameterSet. -/
theorem set_meta_locked_shadows_unknown :
    (ParameterSet.init sampleSchema []).lock = .ok psLockedSample ∧
    psLockedSample.set_meta "nope" Option.none = .error .lockedError ∧
    psLockedSample.set_meta "nope" Option.none
      ≠ .error (.unknownParameter "nope") := by
  refine ⟨rfl, rfl, ?_⟩; decide

/-! ### C10: locking twice -/

/-- C10: `lock()` stores the flag through the guarded `__setattr__`, so on an
unlocked instance it succeeds and a second `lock()` on the result raises
(LockedError). -/
theorem lock_twice_raises (ps : ParameterSet) (h : ps.locked = false) :
    ∃ ps1, ps.lock = .ok ps1 ∧ ps1.locked = true ∧
      ps1.lock = .error .lockedError := by
  refine ⟨{ ps with locked := true }, ?_, rfl, rfl⟩
  unfold ParameterSet.lock ParameterSet.islocked
  rw [h]
  rfl

/-- Witness for C10 on the sample class. -/
theorem lock_twice_raises_witness :
    ∃ ps1, (ParameterSet.init sampleSchema []).lock = .ok ps1 ∧
      ps1.locked = true ∧ ps1.lock = .error .lockedError :=
  lock_twice_raises (ParameterSet.init sampleSchema []) (by decide)

/-! ### Counterexamples for C1, C2, C3 -/

/-- A one-field class with a string default, used to exercise `delta_from`
and `merged_with` without rational arithmetic. -/
def cexSchema : Schema := [⟨"a", .sv (.str "dflt")⟩]

/-- `CexPS({"a": "x"})`. -/
def cexPS0 : ParameterSet :=
  ParameterSet.init cexSchema [("a", .plain (.sv (.str "x")))]

/-- `CexPS({})`. -/
def cexBase : ParameterSet := ParameterSet.init cexSchema []

/-- C1 counterexample: `ps := cexPS0.delta_from(cexPS0)` is a ParameterSet
reached through the public API whose field `a` holds "x" without being in
`_set`.  For `base := CexPS({})`, `base.merged_with(ps.delta_from(base))`
yields the schema default "dflt" at `a` while `ps` holds "x" there, so the
merge/delta round trip is not field-wise tolerant-equal to `ps`. -/
theorem merge_delta_inverse_fails :
    cexPS0.delta_from cexPS0
      = .ok ⟨cexSchema, [("a", .sv (.str "x"))], [], [], false⟩ ∧
    (ParameterSet.mk cexSchema [("a", .sv (.str "x"))] [] [] false).delta_from
        cexBase = .ok ⟨cexSchema, [], [], [], false⟩ ∧
    cexBase.merged_with ⟨cexSchema, [], [], [], false⟩
      = .ok ⟨cexSchema, [], [], [], false⟩ ∧
    (ParameterSet.mk cexSchema [] [] [] false).psValue "a" = .sv (.str "dflt") ∧
    (ParameterSet.mk cexSchema [("a", .sv (.str "x"))] [] [] false).psValue "a"
      = .sv (.str "x") ∧
    value_eq (.sv (.str "dflt")) (.sv (.str "x")) true (1 / 1000000) = false := by
  refine ⟨rfl, rfl, rfl, rfl, rfl, ?_⟩; decide

/-- C2 counterexample: `copy()` builds from the compact serialization, so the
copy of `CexPS({})` has an empty explicit set — not the full field list the
claim states. -/
theorem copy_explicit_set_not_full :
    "a" ∈ cexSchema.names ∧ cexBase.copy.pset = [] ∧
    cexBase.copy.pset ≠ cexSchema.names := by
  refine ⟨by decide, rfl, by decide⟩

/-- C3 counterexample: a ParameterSet reached through the public API whose
field `a` has a metadata entry but is not in `_set`
(`CexPS({"a": {"value": "v", "meta": "note"}}).delta_from(CexPS({"a": "v"}))`).
Its compact serialization omits `a` even though `a` has metadata, against the
claim that every field with a metadata entry appears in the compact output. -/
theorem compact_omits_field_with_metadata :
    (ParameterSet.init cexSchema
        [("a", .withMeta (.sv (.str "v")) (some "note"))]).delta_from
      (ParameterSet.init cexSchema [("a", .plain (.sv (.str "v")))])
      = .ok ⟨cexSchema, [("a", .sv (.str "v"))], [], [("a", some "note")], false⟩ ∧
    (ParameterSet.mk cexSchema [("a", .sv (.str "v"))] []
        [("a", some "note")] false).metaOf "a" = some "note" ∧
    "a" ∉ (ParameterSet.mk cexSchema [("a", .sv (.str "v"))] []
        [("a", some "note")] false).pset ∧
    (ParameterSet.mk cexSchema [("a", .sv (.str "v"))] []
        [("a", some "note")] false).toYamlForm true = [] := by
  refine ⟨rfl, rfl, by decide, rfl⟩

/-! ### Reflexivity of tolerant equality -/

/-- `pytest.approx` comparison of a number with itself holds for any
(nonnegative-relative) tolerance setting. -/
theorem approxEq_num_refl (q th : ℚ) : approxEq (.num q) (.num q) th = true := by
  simp only [approxEq, decide_eq_true_eq]
  rw [sub_self, abs_zero]
  exact le_max_of_le_right (by positivity)

/-- Scalar `value_eq` is reflexive for every parameter setting. -/
theorem sval_eq_refl (v : SVal) (az : Bool) (th : ℚ) : sval_eq v v az th = true := by
  cases v with
  | str s => simp [sval_eq]
  | num q =>
    show (let w := if az && pseudo_zero (.num q) then SVal.num 0 else SVal.num q
          (w == SVal.none && w == SVal.none) || approxEq w w th) = true
    split <;> simp [approxEq_num_refl]
  | nan =>
    show (let w := if az && pseudo_zero SVal.nan then SVal.num 0 else SVal.nan
          (w == SVal.none && w == SVal.none) || approxEq w w th) = true
    split <;> simp [approxEq, approxEq_num_refl]
  | none =>
    show (let w := if az && pseudo_zero SVal.none then SVal.num 0 else SVal.none
          (w == SVal.none && w == SVal.none) || approxEq w w th) = true
    split <;> simp [approxEq, approxEq_num_refl]

/-- A pointwise-true check holds along the diagonal zip. -/
theorem all_zip_self {α : Type} (f : α × α → Bool) (h : ∀ x, f (x, x) = true) :
    ∀ l : List α, (l.zip l).all f = true := by
  intro l
  induction l with
  | nil => rfl
  | cons a rest ih => simp [List.zip_cons_cons, h a, ih]

/-- DataFrame tolerant equality is reflexive. -/
theorem df_value_eq_refl (t : TabV) (az : Bool) (th : ℚ) :
    df_value_eq t t az th = true := by
  unfold df_value_eq
  rw [if_neg (by simp), if_neg (by simp)]
  exact all_zip_self _
    (fun c => all_zip_self _ (fun x => sval_eq_refl x az th) c) t.cells

/-- `value_eq` is reflexive for every parameter setting. -/
theorem value_eq_refl (v : Value) (az : Bool) (th : ℚ) :
    value_eq v v az th = true := by
  cases v with
  | sv a => exact sval_eq_refl a az th
  | tab t => exact df_value_eq_refl t az th

/-! ### Dictionary and set helpers -/

theorem dictGet_dictSet_self {α : Type} (l : List (PName × α)) (k : PName) (v : α) :
    dictGet (dictSet l k v) k = some v := by
  induction l with
  | nil => simp [dictSet, dictGet]
  | cons kv rest ih =>
    cases kv with
    | mk k' v' =>
      by_cases h : k' = k
      · simp [dictSet, dictGet, h]
      · simp [dictSet, dictGet, h, ih]

theorem dictGet_dictSet_ne {α : Type} (l : List (PName × α)) (k f : PName) (v : α)
    (h : k ≠ f) : dictGet (dictSet l k v) f = dictGet l f := by
  induction l with
  | nil => simp [dictSet, dictGet, h]
  | cons kv rest ih =>
    cases kv with
    | mk k' v' =>
      by_cases h' : k' = k
      · subst h'; simp [dictSet, dictGet, h]
      · simp only [dictSet, if_neg h']
        by_cases h'' : k' = f
        · simp [dictGet, h'']
        · simp [dictGet, h'', ih]

theorem dictGet_isSome_iff_mem_keys {α : Type} (l : List (PName × α)) (f : PName) :
    (dictGet l f).isSome ↔ f ∈ l.map Prod.fst := by
  induction l with
  | nil => simp [dictGet]
  | cons kv rest ih =>
    cases kv with
    | mk k v =>
      by_cases h : k = f
      · simp [dictGet, h]
      · simp [dictGet, h, ih, Ne.symm h]

theorem dictGet_none_of_not_mem_keys {α : Type} (l : List (PName × α)) (f : PName)
    (h : f ∉ l.map Prod.fst) : dictGet l f = Option.none := by
  cases hd : dictGet l f with
  | none => rfl
  | some v =>
    exact absurd ((dictGet_isSome_iff_mem_keys l f).mp (by simp [hd])) h

theorem mem_setInsert (s : List PName) (x y : PName) :
    y ∈ setInsert s x ↔ y = x ∨ y ∈ s := by
  unfold setInsert
  by_cases h : x ∈ s
  · rw [if_pos h]
    constructor
    · exact Or.inr
    · rintro (rfl | hy)
      · exact h
      · exact hy
  · rw [if_neg h]
    simp [List.mem_cons]

theorem mem_setDiscard (s : List PName) (x y : PName) :
    y ∈ setDiscard s x ↔ y ∈ s ∧ y ≠ x := by
  unfold setDiscard
  simp [List.mem_filter]

theorem setInsert_nodup (s : List PName) (x : PName) (h : s.Nodup) :
    (setInsert s x).Nodup := by
  unfold setInsert
  by_cases hx : x ∈ s
  · rwa [if_pos hx]
  · rw [if_neg hx]
    exact List.nodup_cons.mpr ⟨hx, h⟩

theorem setDiscard_nodup (s : List PName) (x : PName) (h : s.Nodup) :
    (setDiscard s x).Nodup := List.Nodup.filter _ h

/-! ### Characterizing serialization and construction -/

namespace ParameterSet

/-- The value carried by a parameter's serialized entry is its visible
value. -/
theorem yamlEntry_val (ps : ParameterSet) (p : PName) :
    (ps.yamlEntry p).val = ps.psValue p := by
  unfold yamlEntry
  cases ps.metaOf p <;> rfl

/-- Lookup in `_to_yaml_form`: a field appears iff it is a schema field that
survives compaction, and then carries its serialized entry. -/
theorem toYamlForm_dictGet (ps : ParameterSet) (compact : Bool) (f : PName) :
    dictGet (ps.toYamlForm compact) f =
      if f ∈ ps.schema.names ∧ ¬(compact ∧ f ∉ ps.pset) then some (ps.yamlEntry f)
      else Option.none := by
  unfold toYamlForm
  generalize ps.schema.names = ns
  induction ns with
  | nil => simp [dictGet]
  | cons p rest ih =>
    rw [List.filterMap_cons]
    by_cases hk : compact ∧ p ∉ ps.pset
    · rw [if_pos hk, ih]
      by_cases hf : f = p
      · subst hf
        simp [hk]
      · simp [List.mem_cons, hf]
    · rw [if_neg hk]
      by_cases hf : p = f
      · subst hf
        rw [show ∀ l : RawData, dictGet ((p, ps.yamlEntry p) :: l) p
              = some (ps.yamlEntry p) from fun l => by simp [dictGet],
          if_pos ⟨List.mem_cons_self p rest, hk⟩]
      · rw [show ∀ l : RawData, dictGet ((p, ps.yamlEntry p) :: l) f
              = dictGet l f from fun l => by simp [dictGet, hf],
          ih]
        simp [List.mem_cons, Ne.symm hf]

/-- The key list of `_to_yaml_form` is a sublist of the field names. -/
theorem toYamlForm_keys_sublist (ps : ParameterSet) (compact : Bool) :
    ((ps.toYamlForm compact).map Prod.fst).Sublist ps.schema.names := by
  unfold toYamlForm
  generalize ps.schema.names = ns
  induction ns with
  | nil => simp
  | cons p rest ih =>
    rw [List.filterMap_cons]
    by_cases hk : compact ∧ p ∉ ps.pset
    · rw [if_pos hk]
      exact ih.cons p
    · rw [if_neg hk]
      exact ih.cons₂ p

/-- A record normal form for one construction step. -/
theorem initStep_eq (S : Schema) (ps : ParameterSet) (k : PName) (e : RawEntry) :
    initStep S ps k e =
      if k ∈ S.names then
        { ps with
          pmeta := match e with
                   | .withMeta _ m => dictSet ps.pmeta k m
                   | .plain _ => ps.pmeta,
          vals := dictSet ps.vals k e.val,
          pset := setInsert ps.pset k }
      else ps := by
  unfold initStep
  cases e <;> rfl

/-- Effect of one construction step on the stored values. -/
theorem initStep_vals (S : Schema) (ps : ParameterSet) (k : PName) (e : RawEntry)
    (f : PName) :
    dictGet (initStep S ps k e).vals f =
      if k = f ∧ k ∈ S.names then some e.val else dictGet ps.vals f := by
  rw [initStep_eq]
  by_cases hk : k ∈ S.names
  · rw [if_pos hk]
    by_cases hf : k = f
    · subst hf
      show dictGet (dictSet ps.vals k e.val) k = _
      rw [dictGet_dictSet_self, if_pos ⟨rfl, hk⟩]
    · show dictGet (dictSet ps.vals k e.val) f = _
      rw [dictGet_dictSet_ne _ _ _ _ hf,
        if_neg (fun hc : k = f ∧ k ∈ S.names => hf hc.1)]
  · rw [if_neg hk, if_neg (fun hc : k = f ∧ k ∈ S.names => hk hc.2)]

/-- Effect of one construction step on the metadata. -/
theorem initStep_pmeta (S : Schema) (ps : ParameterSet) (k : PName) (e : RawEntry)
    (f : PName) :
    dictGet (initStep S ps k e).pmeta f =
      if k = f ∧ k ∈ S.names then
        (match e with
         | .withMeta _ m => some m
         | .plain _ => dictGet ps.pmeta f)
      else dictGet ps.pmeta f := by
  rw [initStep_eq]
  by_cases hk : k ∈ S.names
  · rw [if_pos hk]
    cases e with
    | plain v =>
      by_cases hf : k = f
      · rw [if_pos ⟨hf, hk⟩]
      · rw [if_neg (fun hc : k = f ∧ k ∈ S.names => hf hc.1)]
    | withMeta v m =>
      by_cases hf : k = f
      · subst hf
        show dictGet (dictSet ps.pmeta k m) k = _
        rw [dictGet_dictSet_self, if_pos ⟨rfl, hk⟩]
      · show dictGet (dictSet ps.pmeta k m) f = _
        rw [dictGet_dictSet_ne _ _ _ _ hf,
          if_neg (fun hc : k = f ∧ k ∈ S.names => hf hc.1)]
  · rw [if_neg hk, if_neg (fun hc : k = f ∧ k ∈ S.names => hk hc.2)]

/-- Effect of one construction step on `_set`. -/
theorem initStep_pset_mem (S : Schema) (ps : ParameterSet) (k : PName)
    (e : RawEntry) (f : PName) :
    (f ∈ (initStep S ps k e).pset ↔ (f = k ∧ k ∈ S.names) ∨ f ∈ ps.pset) := by
  rw [initStep_eq]
  by_cases hk : k ∈ S.names
  · rw [if_pos hk]
    show f ∈ setInsert ps.pset k ↔ _
    rw [mem_setInsert]
    simp [hk]
  · rw [if_neg hk]
    simp [hk]

/-- One construction step keeps `_set` duplicate-free. -/
theorem initStep_pset_nodup (S : Schema) (ps : ParameterSet) (k : PName)
    (e : RawEntry) (h : ps.pset.Nodup) : (initStep S ps k e).pset.Nodup := by
  rw [initStep_eq]
  by_cases hk : k ∈ S.names
  · rw [if_pos hk]
    exact setInsert_nodup _ _ h
  · rwa [if_neg hk]

/-- Entries whose key never occurs leave the stored values alone. -/
theorem initLoop_vals_skip (S : Schema) (rd : RawData) (f : PName) :
    ∀ ps : ParameterSet, (∀ e ∈ rd, e.1 ≠ f) →
      dictGet (initLoop S ps rd).vals f = dictGet ps.vals f := by
  induction rd with
  | nil => intro ps _; rfl
  | cons kv rest ih =>
    intro ps h
    cases kv with
    | mk k e =>
      rw [initLoop, ih _ (fun e' he' => h e' (List.mem_cons_of_mem _ he')),
        initStep_vals,
        if_neg (fun hc : k = f ∧ k ∈ S.names =>
          h (k, e) (List.mem_cons_self _ _) hc.1)]

/-- A non-schema name is never stored by construction. -/
theorem initLoop_vals_notname (S : Schema) (rd : RawData) (f : PName)
    (h : f ∉ S.names) :
    ∀ ps : ParameterSet, dictGet (initLoop S ps rd).vals f = dictGet ps.vals f := by
  induction rd with
  | nil => intro ps; rfl
  | cons kv rest ih =>
    intro ps
    cases kv with
    | mk k e =>
      rw [initLoop, ih, initStep_vals,
        if_neg (fun hc : k = f ∧ k ∈ S.names => h (hc.1 ▸ hc.2))]

/-- With duplicate-free keys, construction stores exactly the given entry's
value for a recognized field. -/
theorem initLoop_vals_mem (S : Schema) (rd : RawData) (f : PName)
    (hf : f ∈ S.names) :
    ∀ ps : ParameterSet, ∀ e : RawEntry, (rd.map Prod.fst).Nodup →
      dictGet rd f = some e →
      dictGet (initLoop S ps rd).vals f = some e.val := by
  induction rd with
  | nil => intro ps e _ he; simp [dictGet] at he
  | cons kv rest ih =>
    intro ps e hnd he
    cases kv with
    | mk k e0 =>
      rw [List.map_cons, List.nodup_cons] at hnd
      by_cases hk : k = f
      · subst hk
        rw [show dictGet ((k, e0) :: rest) k = some e0 from by simp [dictGet]] at he
        obtain rfl : e0 = e := Option.some.inj he
        rw [initLoop,
          initLoop_vals_skip S rest k _
            (fun e' he' hne => hnd.1 (by rw [← hne]; exact List.mem_map.mpr ⟨e', he', rfl⟩)),
          initStep_vals, if_pos ⟨rfl, hf⟩]
      · rw [show dictGet ((k, e0) :: rest) f = dictGet rest f from by
            simp [dictGet, hk]] at he
        rw [initLoop, ih _ _ hnd.2 he]

/-- Entries whose key never occurs leave the metadata alone. -/
theorem initLoop_pmeta_skip (S : Schema) (rd : RawData) (f : PName) :
    ∀ ps : ParameterSet, (∀ e ∈ rd, e.1 ≠ f) →
      dictGet (initLoop S ps rd).pmeta f = dictGet ps.pmeta f := by
  induction rd with
  | nil => intro ps _; rfl
  | cons kv rest ih =>
    intro ps h
    cases kv with
    | mk k e =>
      rw [initLoop, ih _ (fun e' he' => h e' (List.mem_cons_of_mem _ he')),
        initStep_pmeta,
        if_neg (fun hc : k = f ∧ k ∈ S.names =>
          h (k, e) (List.mem_cons_self _ _) hc.1)]

/-- A non-schema name never receives metadata during construction. -/
theorem initLoop_pmeta_notname (S : Schema) (rd : RawData) (f : PName)
    (h : f ∉ S.names) :
    ∀ ps : ParameterSet, dictGet (initLoop S ps rd).pmeta f = dictGet ps.pmeta f := by
  induction rd with
  | nil => intro ps; rfl
  | cons kv rest ih =>
    intro ps
    cases kv with
    | mk k e =>
      rw [initLoop, ih, initStep_pmeta,
        if_neg (fun hc : k = f ∧ k ∈ S.names => h (hc.1 ▸ hc.2))]

/-- With duplicate-free keys, a recognized field's metadata after
construction is the entry's metadata when nested, else untouched. -/
theorem initLoop_pmeta_mem (S : Schema) (rd : RawData) (f : PName)
    (hf : f ∈ S.names) :
    ∀ ps : ParameterSet, ∀ e : RawEntry, (rd.map Prod.fst).Nodup →
      dictGet rd f = some e →
      dictGet (initLoop S ps rd).pmeta f =
        (match e with
         | .withMeta _ m => some m
         | .plain _ => dictGet ps.pmeta f) := by
  induction rd with
  | nil => intro ps e _ he; simp [dictGet] at he
  | cons kv rest ih =>
    intro ps e hnd he
    cases kv with
    | mk k e0 =>
      rw [List.map_cons, List.nodup_cons] at hnd
      by_cases hk : k = f
      · subst hk
        rw [show dictGet ((k, e0) :: rest) k = some e0 from by simp [dictGet]] at he
        obtain rfl : e0 = e := Option.some.inj he
        rw [initLoop,
          initLoop_pmeta_skip S rest k _
            (fun e' he' hne => hnd.1 (by rw [← hne]; exact List.mem_map.mpr ⟨e', he', rfl⟩)),
          initStep_pmeta, if_pos ⟨rfl, hf⟩]
      · rw [show dictGet ((k, e0) :: rest) f = dictGet rest f from by
            simp [dictGet, hk]] at he
        rw [initLoop, ih _ _ hnd.2 he]
        cases e with
        | plain v =>
          rw [initStep_pmeta, if_neg (fun hc : k = f ∧ k ∈ S.names => hk hc.1)]
        | withMeta v m => rfl

/-- `_set` membership after the construction loop. -/
theorem initLoop_pset_mem (S : Schema) (rd : RawData) (f : PName) :
    ∀ ps : ParameterSet,
      (f ∈ (initLoop S ps rd).pset ↔
        (f ∈ rd.map Prod.fst ∧ f ∈ S.names) ∨ f ∈ ps.pset) := by
  induction rd with
  | nil => intro ps; simp; exact Iff.rfl
  | cons kv rest ih =>
    intro ps
    cases kv with
    | mk k e =>
      rw [initLoop, ih, initStep_pset_mem, List.map_cons]
      constructor
      · rintro (⟨hr, hn⟩ | (⟨rfl, hk⟩ | hp))
        · exact Or.inl ⟨List.mem_cons_of_mem _ hr, hn⟩
        · exact Or.inl ⟨List.mem_cons_self _ _, hk⟩
        · exact Or.inr hp
      · rintro (⟨hm, hn⟩ | hp)
        · rcases List.mem_cons.mp hm with rfl | hr
          · exact Or.inr (Or.inl ⟨rfl, hn⟩)
          · exact Or.inl ⟨hr, hn⟩
        · exact Or.inr (Or.inr hp)

/-- The construction loop keeps `_set` duplicate-free. -/
theorem initLoop_pset_nodup (S : Schema) (rd : RawData) :
    ∀ ps : ParameterSet, ps.pset.Nodup → (initLoop S ps rd).pset.Nodup := by
  induction rd with
  | nil => intro ps h; exact h
  | cons kv rest ih =>
    intro ps h
    cases kv with
    | mk k e => exact ih _ (initStep_pset_nodup S ps k e h)

/-- The visible values only depend on the stored values and the schema. -/
theorem psValue_ext {a b : ParameterSet} (h1 : a.vals = b.vals)
    (h2 : a.schema = b.schema) (f : PName) : a.psValue f = b.psValue f := by
  unfold psValue defaultValue Schema.defaultOf
  rw [h1, h2]

/-- The visible metadata only depends on the metadata dict. -/
theorem metaOf_ext {a b : ParameterSet} (h : a.pmeta = b.pmeta) (f : PName) :
    a.metaOf f = b.metaOf f := by
  unfold metaOf
  rw [h]

/-- Compact serialization lookup: present iff explicitly set (and a schema
field). -/
theorem toYamlForm_dictGet_compact (ps : ParameterSet) (f : PName) :
    dictGet (ps.toYamlForm true) f =
      if f ∈ ps.schema.names ∧ f ∈ ps.pset then some (ps.yamlEntry f)
      else Option.none := by
  rw [toYamlForm_dictGet]
  by_cases h1 : f ∈ ps.schema.names <;> by_cases h2 : f ∈ ps.pset <;>
    simp [h1, h2]

/-- With duplicate-free field names the serialized keys are duplicate-free. -/
theorem toYamlForm_keys_nodup (ps : ParameterSet) (compact : Bool)
    (hnd : ps.schema.names.Nodup) :
    ((ps.toYamlForm compact).map Prod.fst).Nodup :=
  (toYamlForm_keys_sublist ps compact).nodup hnd

/-- The stored values of a copy: exactly the explicitly set fields, with the
original's visible values. -/
theorem copy_vals (ps : ParameterSet) (f : PName) (hnd : ps.schema.names.Nodup) :
    dictGet ps.copy.vals f =
      if f ∈ ps.schema.names ∧ f ∈ ps.pset then some (ps.psValue f)
      else Option.none := by
  unfold copy init
  by_cases h1 : f ∈ ps.schema.names
  · by_cases h2 : f ∈ ps.pset
    · rw [initLoop_vals_mem ps.schema _ f h1 _ (ps.yamlEntry f)
          (toYamlForm_keys_nodup ps true hnd)
          (by rw [toYamlForm_dictGet_compact, if_pos ⟨h1, h2⟩]),
        yamlEntry_val, if_pos ⟨h1, h2⟩]
    · have hnone : dictGet (ps.toYamlForm true) f = Option.none := by
        rw [toYamlForm_dictGet_compact,
          if_neg (fun hc : f ∈ ps.schema.names ∧ f ∈ ps.pset => h2 hc.2)]
      have hkeys : f ∉ (ps.toYamlForm true).map Prod.fst := by
        intro hmem
        have := (dictGet_isSome_iff_mem_keys _ f).mpr hmem
        rw [hnone] at this
        simp at this
      rw [initLoop_vals_skip ps.schema _ f _
          (fun e he hne =>
            hkeys (by rw [← hne]; exact List.mem_map.mpr ⟨e, he, rfl⟩)),
        if_neg (fun hc : f ∈ ps.schema.names ∧ f ∈ ps.pset => h2 hc.2)]
      rfl
  · rw [initLoop_vals_notname ps.schema _ f h1,
      if_neg (fun hc : f ∈ ps.schema.names ∧ f ∈ ps.pset => h1 hc.1)]
    rfl

/-- The visible values of a copy: original values on the explicit set,
schema defaults elsewhere. -/
theorem copy_psValue (ps : ParameterSet) (f : PName)
    (hnd : ps.schema.names.Nodup) (hf : f ∈ ps.schema.names) :
    ps.copy.psValue f =
      if f ∈ ps.pset then ps.psValue f else defaultValue ps.schema f := by
  show (dictGet ps.copy.vals f).getD (defaultValue ps.copy.schema f) = _
  rw [copy_vals ps f hnd, copy_schema]
  by_cases h2 : f ∈ ps.pset
  · rw [if_pos ⟨hf, h2⟩, if_pos h2]
    rfl
  · rw [if_neg (fun hc : f ∈ ps.schema.names ∧ f ∈ ps.pset => h2 hc.2), if_neg h2]
    rfl

/-- The visible metadata of a copy: preserved on explicitly set schema
fields, dropped elsewhere. -/
theorem copy_metaOf (ps : ParameterSet) (f : PName)
    (hnd : ps.schema.names.Nodup) :
    ps.copy.metaOf f =
      if f ∈ ps.schema.names ∧ f ∈ ps.pset then ps.metaOf f
      else Option.none := by
  show (dictGet ps.copy.pmeta f).getD Option.none = _
  unfold copy init
  by_cases h1 : f ∈ ps.schema.names
  · by_cases h2 : f ∈ ps.pset
    · have he : dictGet (ps.toYamlForm true) f = some (ps.yamlEntry f) := by
        rw [toYamlForm_dictGet_compact, if_pos ⟨h1, h2⟩]
      rw [initLoop_pmeta_mem ps.schema _ f h1 _ _
          (toYamlForm_keys_nodup ps true hnd) he]
      unfold yamlEntry
      cases hm : ps.metaOf f with
      | some m =>
        rw [if_pos ⟨h1, h2⟩]
        rfl
      | none =>
        rw [if_pos ⟨h1, h2⟩]
        rfl
    · have hnone : dictGet (ps.toYamlForm true) f = Option.none := by
        rw [toYamlForm_dictGet_compact,
          if_neg (fun hc : f ∈ ps.schema.names ∧ f ∈ ps.pset => h2 hc.2)]
      have hkeys : f ∉ (ps.toYamlForm true).map Prod.fst := by
        intro hmem
        have := (dictGet_isSome_iff_mem_keys _ f).mpr hmem
        rw [hnone] at this
        simp at this
      rw [initLoop_pmeta_skip ps.schema _ f _
          (fun e he hne =>
            hkeys (by rw [← hne]; exact List.mem_map.mpr ⟨e, he, rfl⟩)),
        if_neg (fun hc : f ∈ ps.schema.names ∧ f ∈ ps.pset => h2 hc.2)]
      rfl
  · rw [initLoop_pmeta_notname ps.schema _ f h1,
      if_neg (fun hc : f ∈ ps.schema.names ∧ f ∈ ps.pset => h1 hc.1)]
    rfl

/-- The explicit set of a copy: the original's explicit set restricted to
schema fields. -/
theorem copy_pset_mem (ps : ParameterSet) (f : PName) :
    f ∈ ps.copy.pset ↔ f ∈ ps.schema.names ∧ f ∈ ps.pset := by
  unfold copy init
  rw [initLoop_pset_mem]
  constructor
  · rintro (⟨hkeys, hn⟩ | hfalse)
    · have hsome := (dictGet_isSome_iff_mem_keys _ f).mpr hkeys
      rw [toYamlForm_dictGet_compact] at hsome
      by_cases hc : f ∈ ps.schema.names ∧ f ∈ ps.pset
      · exact hc
      · rw [if_neg hc] at hsome
        simp at hsome
    · exact absurd hfalse (List.not_mem_nil f)
  · intro hc
    refine Or.inl ⟨?_, hc.1⟩
    apply (dictGet_isSome_iff_mem_keys _ f).mp
    rw [toYamlForm_dictGet_compact, if_pos hc]
    rfl

/-- The explicit set of a copy is duplicate-free. -/
theorem copy_pset_nodup (ps : ParameterSet) : ps.copy.pset.Nodup :=
  initLoop_pset_nodup _ _ _ List.nodup_nil

end ParameterSet

/-- C2 (amended): `copy()` builds a new unlocked instance of the same schema
from the compact serialization `to_serializable(compact=True)`.  The copy's
explicit set therefore equals ps's explicit set (not the full field list);
fields in the explicit set keep their visible value and metadata, and all
other schema fields revert to the schema default with no metadata. -/
theorem copy_characterization (ps : ParameterSet)
    (hnd : ps.schema.names.Nodup)
    (hsub : ∀ p ∈ ps.pset, p ∈ ps.schema.names) :
    ps.copy.schema = ps.schema ∧ ps.copy.locked = false ∧
    (∀ f, f ∈ ps.copy.pset ↔ f ∈ ps.pset) ∧
    (∀ f ∈ ps.pset,
      ps.copy.psValue f = ps.psValue f ∧ ps.copy.metaOf f = ps.metaOf f) ∧
    (∀ f ∈ ps.schema.names, f ∉ ps.pset →
      ps.copy.psValue f = defaultValue ps.schema f ∧
      ps.copy.metaOf f = Option.none) := by
  refine ⟨ParameterSet.copy_schema ps, ParameterSet.copy_locked ps, ?_, ?_, ?_⟩
  · intro f
    rw [ParameterSet.copy_pset_mem]
    exact ⟨fun h => h.2, fun h => ⟨hsub f h, h⟩⟩
  · intro f hf
    have hn := hsub f hf
    constructor
    · rw [ParameterSet.copy_psValue ps f hnd hn, if_pos hf]
    · rw [ParameterSet.copy_metaOf ps f hnd, if_pos ⟨hn, hf⟩]
  · intro f hn hnot
    constructor
    · rw [ParameterSet.copy_psValue ps f hnd hn, if_neg hnot]
    · rw [ParameterSet.copy_metaOf ps f hnd,
        if_neg (fun hc : f ∈ ps.schema.names ∧ f ∈ ps.pset => hnot hc.2)]

/-- Witness for C2 at a concrete instance with one explicitly set field. -/
theorem copy_characterization_witness :
    (ParameterSet.init sampleSchema
        [("paramA", .plain (.sv (.str "x")))]).copy.schema
      = (ParameterSet.init sampleSchema
        [("paramA", .plain (.sv (.str "x")))]).schema ∧
    (ParameterSet.init sampleSchema
        [("paramA", .plain (.sv (.str "x")))]).copy.locked = false ∧
    (∀ f, f ∈ (ParameterSet.init sampleSchema
        [("paramA", .plain (.sv (.str "x")))]).copy.pset ↔
      f ∈ (ParameterSet.init sampleSchema
        [("paramA", .plain (.sv (.str "x")))]).pset) ∧
    (∀ f ∈ (ParameterSet.init sampleSchema
        [("paramA", .plain (.sv (.str "x")))]).pset,
      (ParameterSet.init sampleSchema
        [("paramA", .plain (.sv (.str "x")))]).copy.psValue f
        = (ParameterSet.init sampleSchema
        [("paramA", .plain (.sv (.str "x")))]).psValue f ∧
      (ParameterSet.init sampleSchema
        [("paramA", .plain (.sv (.str "x")))]).copy.metaOf f
        = (ParameterSet.init sampleSchema
        [("paramA", .plain (.sv (.str "x")))]).metaOf f) ∧
    (∀ f ∈ (ParameterSet.init sampleSchema
        [("paramA", .plain (.sv (.str "x")))]).schema.names,
      f ∉ (ParameterSet.init sampleSchema
        [("paramA", .plain (.sv (.str "x")))]).pset →
      (ParameterSet.init sampleSchema
        [("paramA", .plain (.sv (.str "x")))]).copy.psValue f
        = defaultValue (ParameterSet.init sampleSchema
        [("paramA", .plain (.sv (.str "x")))]).schema f ∧
      (ParameterSet.init sampleSchema
        [("paramA", .plain (.sv (.str "x")))]).copy.metaOf f = Option.none) :=
  copy_characterization
    (ParameterSet.init sampleSchema [("paramA", .plain (.sv (.str "x")))])
    (by decide) (by decide)

/-- C3 (amended): the compact serialization includes a schema field iff it is
in the explicit set — metadata does not rescue a non-explicit field. -/
theorem compact_omits_iff_not_explicit (ps : ParameterSet) (f : PName)
    (hf : f ∈ ps.schema.names) :
    (f ∈ (ps.toYamlForm true).map Prod.fst ↔ f ∈ ps.pset) := by
  rw [← dictGet_isSome_iff_mem_keys, ParameterSet.toYamlForm_dictGet_compact]
  by_cases h2 : f ∈ ps.pset
  · rw [if_pos ⟨hf, h2⟩]
    simp [h2]
  · rw [if_neg (fun hc : f ∈ ps.schema.names ∧ f ∈ ps.pset => h2 hc.2)]
    simp [h2]

namespace ParameterSet

/-- `deltaStep` only touches `_set`. -/
theorem deltaStep_eq_fields (S : Schema) (base nps : ParameterSet) (p : PName) :
    (deltaStep S base nps p).schema = nps.schema ∧
    (deltaStep S base nps p).vals = nps.vals ∧
    (deltaStep S base nps p).pmeta = nps.pmeta ∧
    (deltaStep S base nps p).locked = nps.locked := by
  unfold deltaStep
  split_ifs <;> exact ⟨rfl, rfl, rfl, rfl⟩

/-- `deltaStep` does not change `_set` membership away from `p`. -/
theorem deltaStep_pset_ne (S : Schema) (base nps : ParameterSet) (p f : PName)
    (hf : f ≠ p) :
    (f ∈ (deltaStep S base nps p).pset ↔ f ∈ nps.pset) := by
  unfold deltaStep
  split_ifs
  · show f ∈ setDiscard nps.pset p ↔ _
    rw [mem_setDiscard]
    exact ⟨fun h => h.1, fun h => ⟨h, hf⟩⟩
  · show f ∈ setInsert nps.pset p ↔ _
    rw [mem_setInsert]
    exact ⟨fun h => h.resolve_left hf, Or.inr⟩
  · exact Iff.rfl

/-- `_set` membership of `p` itself after `deltaStep`. -/
theorem deltaStep_pset_self (S : Schema) (base nps : ParameterSet) (p : PName) :
    (p ∈ (deltaStep S base nps p).pset ↔
      (value_eq (base.psValue p) (nps.psValue p) true (1 / 1000000) = false ∧
        (value_eq (nps.psValue p) (defaultValue S p) true (1 / 1000000) = true ∨
          p ∈ nps.pset))) := by
  unfold deltaStep
  split_ifs with h1 h2
  · show p ∈ setDiscard nps.pset p ↔ _
    rw [mem_setDiscard]
    refine iff_of_false (fun hc => hc.2 rfl) (fun hc => ?_)
    rw [h1] at hc
    exact absurd hc.1 (by decide)
  · rw [Bool.not_eq_true] at h1
    show p ∈ setInsert nps.pset p ↔ _
    rw [mem_setInsert]
    exact iff_of_true (Or.inl rfl) ⟨h1, Or.inl h2⟩
  · rw [Bool.not_eq_true] at h1 h2
    constructor
    · intro hp
      exact ⟨h1, Or.inr hp⟩
    · rintro ⟨-, (hcontra | hp)⟩
      · rw [h2] at hcontra
        exact absurd hcontra (by decide)
      · exact hp

/-- `deltaStep` keeps `_set` duplicate-free. -/
theorem deltaStep_pset_nodup (S : Schema) (base nps : ParameterSet) (p : PName)
    (h : nps.pset.Nodup) : (deltaStep S base nps p).pset.Nodup := by
  unfold deltaStep
  split_ifs
  · exact setDiscard_nodup _ _ h
  · exact setInsert_nodup _ _ h
  · exact h

/-- Running the `delta_from` loop: it succeeds whenever every visited name is
a parameter of both the base and the new instance, it leaves everything but
`_set` alone, and `_set` ends up exactly as the comparison policy dictates. -/
theorem deltaLoop_spec (S : Schema) (base : ParameterSet) (l : List PName) :
    ∀ nps : ParameterSet, l.Nodup →
      (∀ p ∈ l, p ∈ base.schema.names) →
      (∀ p ∈ l, p ∈ nps.schema.names) →
      ∃ d, deltaLoop S base nps l = .ok d ∧
        d.schema = nps.schema ∧ d.vals = nps.vals ∧ d.pmeta = nps.pmeta ∧
        d.locked = nps.locked ∧ (nps.pset.Nodup → d.pset.Nodup) ∧
        (∀ f, f ∉ l → (f ∈ d.pset ↔ f ∈ nps.pset)) ∧
        (∀ f ∈ l,
          (f ∈ d.pset ↔
            (value_eq (base.psValue f) (nps.psValue f) true (1 / 1000000) = false ∧
              (value_eq (nps.psValue f) (defaultValue S f) true (1 / 1000000) = true ∨
                f ∈ nps.pset)))) := by
  induction l with
  | nil =>
    intro nps _ _ _
    exact ⟨nps, rfl, rfl, rfl, rfl, rfl, fun h => h, fun f _ => Iff.rfl,
      fun f hf => absurd hf (List.not_mem_nil f)⟩
  | cons p rest ih =>
    intro nps hnd hb hn
    rw [List.nodup_cons] at hnd
    have hbp : p ∈ base.schema.names := hb p (List.mem_cons_self _ _)
    have hnp : p ∈ nps.schema.names := hn p (List.mem_cons_self _ _)
    have hfields := deltaStep_eq_fields S base nps p
    have hstep : deltaLoop S base nps (p :: rest)
        = deltaLoop S base (deltaStep S base nps p) rest := by
      simp only [deltaLoop]
      rw [getItem_ok base p hbp, getItem_ok nps p hnp]
      rfl
    obtain ⟨d, hrun, hsch, hvals, hmeta, hlock, hnodup, hout, hin⟩ :=
      ih (deltaStep S base nps p) hnd.2
        (fun q hq => hb q (List.mem_cons_of_mem _ hq))
        (fun q hq => by
          rw [hfields.1]
          exact hn q (List.mem_cons_of_mem _ hq))
    have hval_pres : ∀ f, (deltaStep S base nps p).psValue f = nps.psValue f :=
      psValue_ext hfields.2.1 hfields.1
    refine ⟨d, by rw [hstep]; exact hrun, hsch.trans hfields.1,
      hvals.trans hfields.2.1, hmeta.trans hfields.2.2.1,
      hlock.trans hfields.2.2.2,
      fun h => hnodup (deltaStep_pset_nodup S base nps p h), ?_, ?_⟩
    · intro f hf
      have hfp : f ≠ p := fun h => hf (h ▸ List.mem_cons_self _ _)
      have hfr : f ∉ rest := fun h => hf (List.mem_cons_of_mem _ h)
      rw [hout f hfr]
      exact deltaStep_pset_ne S base nps p f hfp
    · intro f hf
      rcases List.mem_cons.mp hf with rfl | hfr
      · rw [hout f hnd.1]
        exact deltaStep_pset_self S base nps f
      · have hfp : f ≠ p := fun h => hnd.1 (h ▸ hfr)
        rw [hin f hfr, hval_pres f, deltaStep_pset_ne S base nps p f hfp]

/-- Running the `merged_with` loop on an unlocked instance of `other`'s
class: it succeeds, stays unlocked, and stores `other`'s visible value at
every visited name that is a parameter of `other`. -/
theorem mergeLoop_spec (other : ParameterSet) (l : List PName) :
    ∀ nps : ParameterSet, nps.locked = false → nps.schema = other.schema →
      ∃ m, mergeLoop other nps l = .ok m ∧ m.schema = nps.schema ∧
        m.locked = false ∧
        (∀ f, dictGet m.vals f =
          if f ∈ l ∧ f ∈ other.schema.names then some (other.psValue f)
          else dictGet nps.vals f) := by
  induction l with
  | nil =>
    intro nps hl hsch
    refine ⟨nps, rfl, rfl, hl, fun f => ?_⟩
    rw [if_neg (fun hc : f ∈ ([] : List PName) ∧ f ∈ other.schema.names =>
      List.not_mem_nil f hc.1)]
  | cons op rest ih =>
    intro nps hl hsch
    by_cases hop : op ∈ other.schema.names
    · have hopn : op ∈ nps.schema.names := by rw [hsch]; exact hop
      have h1 := setItem_ok nps op (other.psValue op) hl hopn
      have h2 := set_meta_ok
        { nps with
          vals := dictSet nps.vals op (other.psValue op)
          pset := setInsert nps.pset op } op (other.metaOf op) hl hopn
      have hstep : mergeLoop other nps (op :: rest)
          = mergeLoop other
            { nps with
              vals := dictSet nps.vals op (other.psValue op)
              pset := setInsert (setInsert nps.pset op) op
              pmeta := dictSet nps.pmeta op (other.metaOf op) } rest := by
        simp only [mergeLoop]
        rw [if_pos hop]
        rw [getItem_ok other op hop]
        simp only [h1, meta_ok other op hop, h2]
      obtain ⟨m, hrun, hsch', hl', hvals⟩ := ih
        { nps with
          vals := dictSet nps.vals op (other.psValue op)
          pset := setInsert (setInsert nps.pset op) op
          pmeta := dictSet nps.pmeta op (other.metaOf op) } hl hsch
      refine ⟨m, by rw [hstep]; exact hrun, hsch', hl', fun f => ?_⟩
      rw [hvals f]
      by_cases hf1 : f ∈ rest ∧ f ∈ other.schema.names
      · rw [if_pos hf1, if_pos ⟨List.mem_cons_of_mem _ hf1.1, hf1.2⟩]
      · rw [if_neg hf1]
        by_cases hfo : f = op
        · subst hfo
          show dictGet (dictSet nps.vals f (other.psValue f)) f = _
          rw [dictGet_dictSet_self,
            if_pos ⟨List.mem_cons_self _ _, hop⟩]
        · show dictGet (dictSet nps.vals op (other.psValue op)) f = _
          rw [dictGet_dictSet_ne _ _ _ _ (fun h => hfo h.symm),
            if_neg (fun hc : f ∈ op :: rest ∧ f ∈ other.schema.names => by
              rcases List.mem_cons.mp hc.1 with rfl | hr
              · exact hfo rfl
              · exact hf1 ⟨hr, hc.2⟩)]
    · have hstep : mergeLoop other nps (op :: rest) = mergeLoop other nps rest := by
        simp only [mergeLoop]
        rw [if_neg hop]
      obtain ⟨m, hrun, hsch', hl', hvals⟩ := ih nps hl hsch
      refine ⟨m, by rw [hstep]; exact hrun, hsch', hl', fun f => ?_⟩
      rw [hvals f]
      by_cases hf1 : f ∈ rest ∧ f ∈ other.schema.names
      · rw [if_pos hf1, if_pos ⟨List.mem_cons_of_mem _ hf1.1, hf1.2⟩]
      · rw [if_neg hf1,
          if_neg (fun hc : f ∈ op :: rest ∧ f ∈ other.schema.names => by
            rcases List.mem_cons.mp hc.1 with rfl | hr
            · exact hop hc.2
            · exact hf1 ⟨hr, hc.2⟩)]

end ParameterSet

/-- C1 (amended): the merge/delta inverse law holds for `base` and `ps` of
the same schema (with distinct field names) in ordinary states: whenever
every schema field outside the explicit set of `ps` (respectively of `base`)
holds exactly its schema default — which is the case for every instance
built by construction and setters alone — `base.merged_with(ps.delta_from(base))`
is field-wise tolerant-equal to `ps` on every schema field.  (The law fails
without these restrictions: delta_from can leave a non-default value outside
the explicit set, and across schemas a field can revert to a different
default; see the counterexample.) -/
theorem merge_delta_inverse (S : Schema) (hnd : S.names.Nodup)
    (ps base : ParameterSet) (hps : ps.schema = S) (hbase : base.schema = S)
    (hpd : ∀ f ∈ S.names, f ∉ ps.pset → ps.psValue f = defaultValue S f)
    (hbd : ∀ f ∈ S.names, f ∉ base.pset → base.psValue f = defaultValue S f) :
    ∃ d m, ps.delta_from base = .ok d ∧ base.merged_with d = .ok m ∧
      m.schema = S ∧
      ∀ f ∈ S.names,
        value_eq (m.psValue f) (ps.psValue f) true (1 / 1000000) = true := by
  have hndps : ps.schema.names.Nodup := by rw [hps]; exact hnd
  have hndb : base.schema.names.Nodup := by rw [hbase]; exact hnd
  obtain ⟨d, hdrun, hdsch, hdvals, hdmeta, hdlock, hdnodup, hdout, hdin⟩ :=
    ParameterSet.deltaLoop_spec ps.schema base ps.schema.names ps.copy hndps
      (fun p hp => by rw [hbase]; rw [hps] at hp; exact hp)
      (fun p hp => by rw [ParameterSet.copy_schema]; exact hp)
  have hdsch' : d.schema = S := by
    rw [hdsch, ParameterSet.copy_schema, hps]
  have hdval_eq : ∀ f, d.psValue f = ps.copy.psValue f :=
    ParameterSet.psValue_ext hdvals hdsch
  have hdelta : ps.delta_from base = .ok d := hdrun
  have hnewps : ParameterSet.init d.schema (base.toYamlForm true) = base.copy := by
    rw [show d.schema = base.schema from by rw [hdsch', hbase]]
    rfl
  obtain ⟨m, hmrun, hmsch, hmlock, hmvals⟩ :=
    ParameterSet.mergeLoop_spec d d.pset base.copy (ParameterSet.copy_locked base)
      (by rw [ParameterSet.copy_schema, hbase, hdsch'])
  have hmerged : base.merged_with d = .ok m := by
    show ParameterSet.mergeLoop d
      (ParameterSet.init d.schema (base.toYamlForm true)) d.pset = .ok m
    rw [hnewps]
    exact hmrun
  have hmsch' : m.schema = S := by
    rw [hmsch, ParameterSet.copy_schema, hbase]
  refine ⟨d, m, hdelta, hmerged, hmsch', ?_⟩
  intro f hf
  have hfps : f ∈ ps.schema.names := by rw [hps]; exact hf
  have hfb : f ∈ base.schema.names := by rw [hbase]; exact hf
  have hfd : f ∈ d.schema.names := by rw [hdsch']; exact hf
  have hcv : ps.copy.psValue f
      = if f ∈ ps.pset then ps.psValue f else defaultValue S f := by
    rw [ParameterSet.copy_psValue ps f hndps hfps]
    by_cases h : f ∈ ps.pset
    · rw [if_pos h, if_pos h]
    · rw [if_neg h, if_neg h, hps]
  have hcps : ps.copy.psValue f = ps.psValue f := by
    rw [hcv]
    by_cases h : f ∈ ps.pset
    · rw [if_pos h]
    · rw [if_neg h, hpd f hf h]
  have hmv := hmvals f
  have hm_psValue : m.psValue f = (dictGet m.vals f).getD (defaultValue S f) := by
    show (dictGet m.vals f).getD (defaultValue m.schema f) = _
    rw [hmsch']
  by_cases hfdp : f ∈ d.pset
  · rw [hm_psValue, hmv, if_pos ⟨hfdp, hfd⟩]
    show value_eq (d.psValue f) (ps.psValue f) true (1 / 1000000) = true
    rw [hdval_eq f, hcps]
    exact value_eq_refl _ _ _
  · have hd_iff := hdin f hfps
    have hveq : value_eq (base.psValue f) (ps.copy.psValue f) true (1 / 1000000)
        = true := by
      cases hb : value_eq (base.psValue f) (ps.copy.psValue f) true (1 / 1000000) with
      | true => rfl
      | false =>
        exfalso
        apply hfdp
        apply hd_iff.mpr
        refine ⟨hb, ?_⟩
        by_cases h : f ∈ ps.pset
        · right
          rw [ParameterSet.copy_pset_mem]
          exact ⟨hfps, h⟩
        · left
          rw [hcv, if_neg h, hps]
          exact value_eq_refl _ _ _
    rw [hm_psValue, hmv,
      if_neg (fun hc : f ∈ d.pset ∧ f ∈ d.schema.names => hfdp hc.1),
      ParameterSet.copy_vals base f hndb]
    by_cases hfbp : f ∈ base.pset
    · rw [if_pos ⟨hfb, hfbp⟩]
      show value_eq (base.psValue f) (ps.psValue f) true (1 / 1000000) = true
      rw [← hcps]
      exact hveq
    · rw [if_neg (fun hc : f ∈ base.schema.names ∧ f ∈ base.pset => hfbp hc.2)]
      show value_eq (defaultValue S f) (ps.psValue f) true (1 / 1000000) = true
      rw [← hcps, ← hbd f hf hfbp]
      exact hveq

/-- Witness for C1 at a concrete one-field class: `ps` explicitly sets the
field, `base` leaves it default. -/
theorem merge_delta_inverse_witness :
    ∃ d m, cexPS0.delta_from cexBase = .ok d ∧ cexBase.merged_with d = .ok m ∧
      m.schema = cexSchema ∧
      ∀ f ∈ cexSchema.names,
        value_eq (m.psValue f) (cexPS0.psValue f) true (1 / 1000000) = true :=
  merge_delta_inverse cexSchema (by decide) cexPS0 cexBase rfl rfl
    (by decide) (by decide)

/-- Witness for C3 at the metadata-but-not-explicit instance of the C3
counterexample. -/
theorem compact_omits_iff_not_explicit_witness :
    ("a" ∈ ((ParameterSet.mk cexSchema [("a", .sv (.str "v"))] []
        [("a", some "note")] false).toYamlForm true).map Prod.fst ↔
      "a" ∈ (ParameterSet.mk cexSchema [("a", .sv (.str "v"))] []
        [("a", some "note")] false).pset) :=
  compact_omits_iff_not_explicit
    (ParameterSet.mk cexSchema [("a", .sv (.str "v"))] [] [("a", some "note")] false)
    "a" (by decide)

end SolutionsModel
